import Mathlib

set_option linter.unusedVariables false

/-
Verification development for the crawl-orchestration core of the
University-Application-Information-Scraper repository.

Shallow embedding of:
* utils/deduplicator.py   (result aggregator / deduplicator)
* utils/deep_crawler.py   (depth-bounded keyword-guided DFS crawler)
* utils/progress.py       (bounded-concurrency task dispatcher)
* utils/selenium_utils.py (browser resource pool)

External library calls (requests, urllib.parse.urljoin, the `re` date
patterns, BeautifulSoup queries, selenium driver creation) are modelled
as oracle parameters; everything authored in the repository itself is
translated definition-by-definition.
-/

namespace Scraper

/-! ## utils/deduplicator.py -/

/-- A scraped record: a Python dict modelled as an association list from
field name to string value.  `item.get(field, "")` reads the first
binding and defaults to `""`. -/
abbrev Rec := List (String × String)

/-- `item.get(field, "")`. -/
def getField (item : Rec) (field : String) : String :=
  match item.find? (fun p => p.1 == field) with
  | some p => p.2
  | none => ""

/-- Python whitespace as used by `str.split()` / `str.strip()`
(ASCII part: space, tab, newline, carriage return, vertical tab,
form feed). -/
def isPyWS (c : Char) : Bool :=
  c == ' ' || c == '\t' || c == '\n' || c == '\r' ||
    c == Char.ofNat 11 || c == Char.ofNat 12

/-- `value.strip()` on the underlying character list. -/
def pyStripList (l : List Char) : List Char :=
  ((l.dropWhile isPyWS).reverse.dropWhile isPyWS).reverse

/-- `value.strip()`. -/
def pyStrip (s : String) : String := String.mk (pyStripList s.data)

/-- Helper for `value.split()`: walks the characters, accumulating the
current (reversed) word. -/
def pySplitAux : List Char → List Char → List String
  | [], cur => if cur.isEmpty then [] else [String.mk cur.reverse]
  | c :: rest, cur =>
    if isPyWS c then
      if cur.isEmpty then pySplitAux rest []
      else String.mk cur.reverse :: pySplitAux rest []
    else pySplitAux rest (c :: cur)

/-- `value.split()`: split on runs of whitespace, dropping empties. -/
def pySplit (s : String) : List String := pySplitAux s.data []

/-- `" ".join(value.split())`: collapse internal whitespace, trim ends. -/
def collapseWS (s : String) : String := String.intercalate " " (pySplit s)

/-- Per-field normalization used when building the dedup key
(`deduplicate_results`, lines 42-51): URLs are stripped but keep their
case, names have all whitespace collapsed, other fields are stripped. -/
def normalizeField (field value : String) : String :=
  if field == "项目链接" then pyStrip value
  else if field == "项目名称" then collapseWS value
  else pyStrip value

/-- The composite key `tuple(key_values)` built for one record. -/
def recKey (key_fields : List String) (item : Rec) : List String :=
  key_fields.map (fun f => normalizeField f (getField item f))

/-- The main loop of `deduplicate_results`: `seen_keys` as a list used
as a set, keeping a record iff its key is unseen. -/
def dedupAux (kf : List String) : List (List String) → List Rec → List Rec
  | _, [] => []
  | seen, r :: rest =>
    if recKey kf r ∈ seen then dedupAux kf seen rest
    else r :: dedupAux kf (recKey kf r :: seen) rest

/-- Default `key_fields` when the caller passes `None`. -/
def defaultKeyFields : List String := ["项目名称", "项目链接"]

/-- `deduplicate_results(results, key_fields)` from utils/deduplicator.py:
early-return `[]` on an empty input, otherwise keep the first occurrence
of each composite normalized key. -/
def deduplicate_results (results : List Rec) (key_fields : Option (List String)) :
    List Rec :=
  if results.isEmpty then []
  else dedupAux (key_fields.getD defaultKeyFields) [] results

/-- Spec-side characterization for the frame/effect claim: the element at
index `i` is kept iff its key does not occur among the keys of `pre` nor
among the keys of the records before index `i`.  Written independently of
the source's seen-set recursion (via `List.take` prefixes). -/
def firstOccFrom (kf : List String) (pre : List (List String)) (X : List Rec) :
    List Rec :=
  (List.range X.length).filterMap (fun i =>
    (X.get? i).bind (fun r =>
      if recKey kf r ∈ pre ++ (X.take i).map (recKey kf) then none else some r))

/-! ## utils/deep_crawler.py -/

/-- Substring containment, Python's `needle in hay`, on character lists. -/
def isInfixList : List Char → List Char → Bool
  | needle, [] => needle.isEmpty
  | needle, c :: rest =>
    needle.isPrefixOf (c :: rest) || isInfixList needle rest

/-- Python `needle in hay` for strings. -/
def containsSubstr (hay needle : String) : Bool :=
  isInfixList needle.data hay.data

/-- Python `s.lower()` (ASCII case folding). -/
def pyLower (s : String) : String := String.mk (s.data.map Char.toLower)

/-- Python `s.startswith(pre)`. -/
def pyStartsWith (s pre : String) : Bool := pre.data.isPrefixOf s.data

/-- `DeepCrawler.KEYWORDS_FOLLOW`. -/
def KEYWORDS_FOLLOW : List String :=
  ["admissions", "admission", "how to apply", "application",
   "deadlines", "deadline", "dates", "apply now",
   "learn more", "see program website", "requirements"]

/-- `DeepCrawler.KEYWORDS_APPLY`. -/
def KEYWORDS_APPLY : List String :=
  ["apply now", "start your application", "online application",
   "application portal", "login", "register", "apply"]

/-- One `<a href=...>` element as the crawler reads it: the two
`get_text` variants used by the source and the raw `href` attribute. -/
structure Anchor where
  /-- `a.get_text(" ", strip=True)` (used in `_extract_info_from_page`). -/
  textSpaced : String
  /-- `a.get_text(strip=True)` (used in `_get_next_links`). -/
  textTight : String
  /-- `a.get('href')`. -/
  href : String
  deriving DecidableEq, Repr

/-- A fetched page as seen through the BeautifulSoup queries the crawler
performs: its anchors, and the text blocks gathered from
parents/siblings of headers matching `Deadline|Date`. -/
structure Page where
  anchors : List Anchor
  deadlineBlocks : List String
  deriving DecidableEq, Repr

/-- The external capabilities the crawler consumes: page fetching
(`requests.Session.get` + BeautifulSoup), raw text fetching for the
apply-link validator, `urllib.parse.urljoin`, and the regex date
matcher `_extract_date` (DATE_PATTERNS applied to short lines). -/
structure Web where
  /-- `_get_soup`: `None` on non-200 status or exception. -/
  fetch : String → Option Page
  /-- `self.session.get(url).text` in `_validate_page_content`;
  `none` models a raised exception. -/
  fetchText : String → Option String
  /-- `urllib.parse.urljoin(base, href)`. -/
  urljoin : String → String → String
  /-- `_extract_date(text)`: first DATE_PATTERNS match over the short
  lines of `text`, or `None`. -/
  extractDate : String → Option String

/-- Python truthiness of an optional string: `None` and `""` are falsy. -/
def truthyOpt : Option String → Bool
  | none => false
  | some s => !(s == "")

/-- The mutable `result` dict of one `crawl()` call. -/
structure CrawlResult where
  deadline : Option String
  apply_link : Option String
  deriving DecidableEq, Repr

/-- `result["deadline"] and result["apply_link"]` as used in `_dfs` and
the early-break of its link loop. -/
def bothFound (r : CrawlResult) : Bool :=
  truthyOpt r.deadline && truthyOpt r.apply_link

/-- The state threaded through `_dfs`: the `visited` set (as a list used
as a set) and the partial `result`. -/
structure DfsState where
  visited : List String
  result : CrawlResult
  deriving DecidableEq, Repr

/-- `_validate_page_content(url)`: reject URL patterns that are mere
explainer pages, then fetch and look for login/registration indicators. -/
def validatePageContent (w : Web) (url : String) : Bool :=
  if url == "" || containsSubstr url "how-to-apply" ||
      containsSubstr url "application-process" then false
  else
    match w.fetchText url with
    | none => false
    | some body =>
      ["log in", "login", "sign in", "create an account",
       "start your application", "application portal"].any
        (fun kw => containsSubstr (pyLower body) kw)

/-- The apply-link loop of `_extract_info_from_page`: scan anchors in order,
returning the first candidate whose target passes validation (`break`),
skipping invalid links, path-like URLs and failed validations (`continue`). -/
def findApplyLink (w : Web) (base_url : String) : List Anchor → Option String
  | [] => none
  | a :: rest =>
    let text := pyLower a.textSpaced
    let full_url := w.urljoin base_url a.href
    if !(pyStartsWith full_url "http" || pyStartsWith full_url "/") ||
        containsSubstr full_url "pdf" then findApplyLink w base_url rest
    else if pyStartsWith full_url "mailto:" || pyStartsWith full_url "tel:" then
      findApplyLink w base_url rest
    else if KEYWORDS_APPLY.any (fun kw => containsSubstr text kw) then
      if containsSubstr full_url "how-to-apply" ||
          containsSubstr full_url "/applying" ||
          containsSubstr full_url "/admissions" then
        findApplyLink w base_url rest
      else if validatePageContent w full_url then some full_url
      else findApplyLink w base_url rest
    else findApplyLink w base_url rest

/-- The `deadline_text` accumulated from the matched headers'
parent/sibling text blocks (each followed by `"\n"`). -/
def deadlineText (page : Page) : String :=
  String.join (page.deadlineBlocks.map (fun b => b ++ "\n"))

/-- `_extract_info_from_page(soup, base_url, result)`: fill `apply_link`
then `deadline`, each only when not already truthy. -/
def extractInfoFromPage (w : Web) (page : Page) (base_url : String)
    (r : CrawlResult) : CrawlResult :=
  let r1 :=
    if truthyOpt r.apply_link then r
    else
      match findApplyLink w base_url page.anchors with
      | some u => { r with apply_link := some u }
      | none => r
  if truthyOpt r1.deadline then r1
  else
    let extracted := w.extractDate (deadlineText page)
    if truthyOpt extracted then { r1 with deadline := extracted } else r1

/-- First-occurrence deduplication of a string list,
`list(dict.fromkeys(links))`. -/
def dedupFirst : List String → List String → List String
  | _, [] => []
  | seen, l :: rest =>
    if l ∈ seen then dedupFirst seen rest
    else l :: dedupFirst (l :: seen) rest

/-- `_get_next_links(soup, base_url)`: anchors whose tight text contains a
follow keyword, skipping fragment/javascript/mailto/tel hrefs, then
first-occurrence dedup and the fan-out cap `[:5]`. -/
def getNextLinks (w : Web) (page : Page) (base_url : String) : List String :=
  let links := page.anchors.filterMap (fun a =>
    let text := pyLower a.textTight
    let href := a.href
    if href == "" || pyStartsWith href "#" || pyStartsWith href "javascript" ||
        pyStartsWith href "mailto" || pyStartsWith href "tel" then none
    else if KEYWORDS_FOLLOW.any (fun kw => containsSubstr text kw) then
      some (w.urljoin base_url href)
    else none)
  (dedupFirst [] links).take 5

/-- The `for link in next_links` loop of `_dfs`: before each recursive
call, `break` if both fields are found. -/
def runLinks (step : String → DfsState → DfsState) :
    List String → DfsState → DfsState
  | [], s => s
  | l :: rest, s =>
    if bothFound s.result then s
    else runLinks step rest (step l s)

/-- The body of `_dfs(url, depth, visited, result)`: termination checks
(depth cap, both fields found, already visited), visit, fetch, extract,
and — when `depth < max_depth - 1` — the loop over the next links, whose
recursive call is abstracted as `recurse`. -/
def dfsStep (w : Web) (max_depth : Nat)
    (recurse : Option (String → DfsState → DfsState))
    (url : String) (depth : Nat) (s : DfsState) : DfsState :=
  if max_depth ≤ depth then s
  else if bothFound s.result then s
  else if url ∈ s.visited then s
  else
    let s1 : DfsState := { s with visited := url :: s.visited }
    match w.fetch url with
    | none => s1
    | some page =>
      let s2 : DfsState :=
        { s1 with result := extractInfoFromPage w page url s1.result }
      if bothFound s2.result then s2
      else if depth < max_depth - 1 then
        match recurse with
        | none => s2
        | some step => runLinks step (getNextLinks w page url) s2
      else s2

/-- `_dfs` itself.  `fuel` is only a structural termination device: the
source recursion is bounded because a recursive call happens only under
`depth < max_depth - 1`, so along every real call chain
`max_depth - depth` strictly decreases; all entry points take
`fuel = max_depth`, which dominates that bound, and the fuel-exhaustion
branch (`recurse = none` with the depth guard open) is unreachable
(`dfs_fuel_irrelevant` below). -/
def dfs (w : Web) (max_depth : Nat) : Nat → String → Nat → DfsState → DfsState
  | 0, url, depth, s => dfsStep w max_depth none url depth s
  | fuel + 1, url, depth, s =>
    dfsStep w max_depth
      (some (fun l st => dfs w max_depth fuel l (depth + 1) st)) url depth s

/-- Output shape of `crawl`. -/
structure CrawlOutput where
  deadline : String
  apply_link : String
  deriving DecidableEq, Repr

/-- `result["deadline"] if result["deadline"] else "N/A"`. -/
def outField (o : Option String) : String :=
  match o with
  | some v => if v == "" then "N/A" else v
  | none => "N/A"

/-- `crawl(start_url)` together with the final `visited` set of its
`_dfs` run (empty when the trivial-URL guard fires). -/
def crawlRun (w : Web) (max_depth : Nat) (start_url : String) :
    CrawlOutput × List String :=
  if start_url == "" || pyLower start_url == "n/a" then
    (⟨"N/A", "N/A"⟩, [])
  else
    let s := dfs w max_depth max_depth start_url 0 ⟨[], ⟨none, none⟩⟩
    (⟨outField s.result.deadline, outField s.result.apply_link⟩, s.visited)

/-- `DeepCrawler.crawl(start_url)`. -/
def crawl (w : Web) (max_depth : Nat) (start_url : String) : CrawlOutput :=
  (crawlRun w max_depth start_url).1

/-- The URLs visited by one `crawl()` call. -/
def crawlVisited (w : Web) (max_depth : Nat) (start_url : String) :
    List String :=
  (crawlRun w max_depth start_url).2

/-- The internal partial result of one `crawl()` call, before the
"not found" sentinel is substituted. -/
def crawlSearch (w : Web) (max_depth : Nat) (start_url : String) :
    CrawlResult :=
  if start_url == "" || pyLower start_url == "n/a" then ⟨none, none⟩
  else (dfs w max_depth max_depth start_url 0 ⟨[], ⟨none, none⟩⟩).result

/-- `Σ_{i=0}^{k-1} 5^i` in the recurrence form the DFS bound follows. -/
def geomF : Nat → Nat
  | 0 => 0
  | k + 1 => 1 + 5 * geomF k

/-! ## utils/progress.py — CrawlerProgress task dispatcher

The completion loop `for future in as_completed(future_to_item)` is
modelled by letting `order` range over arbitrary permutations of the
submitted items (completion order is unconstrained), and the cooperative
interrupt flag by an optional iteration index `interruptAt`: the
`is_interrupted` check at the top of iteration `i` observes `true`
exactly when `interruptAt = some c` with `c ≤ i`, upon which the loop
cancels pending futures and breaks. -/

/-- The dispatcher's per-run state: `results`, `failed_items` (item plus
error string), `durations` and the three counters, as reset by
`_reset_stats`. -/
structure DispatchState (α β : Type) where
  results : List β
  failed_items : List (α × String)
  durations : List Nat
  completed_count : Nat
  success_count : Nat
  fail_count : Nat
  deriving DecidableEq, Repr

/-- State after `_reset_stats`. -/
def emptyDispatch (α β : Type) : DispatchState α β := ⟨[], [], [], 0, 0, 0⟩

/-- Handling of one completed future in `_run_with_rich_progress` /
`_run_with_simple_progress`: on success append the result and bump
`completed`/`success`; on a raised exception record the failed item and
bump `completed`/`fail`. -/
def processOne (task : α → Except String (β × Nat))
    (st : DispatchState α β) (item : α) : DispatchState α β :=
  match task item with
  | Except.ok (data, duration) =>
    { st with
      results := st.results ++ [data],
      completed_count := st.completed_count + 1,
      success_count := st.success_count + 1,
      durations := st.durations ++ [duration] }
  | Except.error e =>
    { st with
      completed_count := st.completed_count + 1,
      fail_count := st.fail_count + 1,
      failed_items := st.failed_items ++ [(item, e)] }

/-- Value of `self.is_interrupted` observed at the top of iteration `i`. -/
def checkInterrupted : Option Nat → Nat → Bool
  | none, _ => false
  | some c, i => c ≤ i

/-- The completion loop: process completed futures in completion order,
breaking (and cancelling the rest) once the interrupt flag is observed. -/
def runLoop (task : α → Except String (β × Nat)) (interruptAt : Option Nat) :
    List α → Nat → DispatchState α β → DispatchState α β
  | [], _, st => st
  | item :: rest, i, st =>
    if checkInterrupted interruptAt i then st
    else runLoop task interruptAt rest (i + 1) (processOne task st item)

/-- `CrawlerProgress.run_tasks(items, task_func)` for a given completion
order: reset stats, run the loop, return `self.results`. -/
def run_tasks (task : α → Except String (β × Nat)) (interruptAt : Option Nat)
    (order : List α) : DispatchState α β :=
  runLoop task interruptAt order 0 (emptyDispatch α β)

/-- The per-item success projection: the result appended when the task's
future yields normally, `none` when it raised. -/
def okResult (task : α → Except String (β × Nat)) (item : α) : Option β :=
  match task item with
  | Except.ok p => some p.1
  | Except.error _ => none

/-! ## utils/selenium_utils.py — BrowserPool -/

/-- The fields of `BrowserPool` (`__init__`, lines 35-48).  Driver
handles are identified by naturals; `pool` is the internal
`queue.Queue`, `all_browsers` the creation-order list. -/
structure BrowserPoolState where
  size : Int
  headless : Bool
  pool : List Nat
  all_browsers : List Nat
  initialized : Bool
  deriving DecidableEq, Repr

/-- `BrowserPool.__init__(size, headless)`: stores the configuration with
no validation and empty structures. -/
def browserPoolInit (size : Int) (headless : Bool) : BrowserPoolState :=
  ⟨size, headless, [], [], false⟩

/-- `BrowserPool.initialize()`: no-op when already initialized, otherwise
spawn `size` creation threads (`range(size)` is empty for `size ≤ 0`);
`createOk` models which `get_driver` calls succeed (a thread whose
creation raises simply adds nothing). -/
def initializePool (createOk : Nat → Bool) (s : BrowserPoolState) :
    BrowserPoolState :=
  if s.initialized then s
  else
    let created := (List.range s.size.toNat).filter createOk
    { s with pool := created, all_browsers := created, initialized := true }

/-- Dynamic view of the pool used for the checkout invariants: the
available queue (FIFO) and the multiset of checked-out handles. -/
structure PoolDyn where
  avail : List Nat
  checkedOut : List Nat
  deriving DecidableEq, Repr

/-- One transition of the pool: `self._pool.get()` moves the queue head
to checked-out; returning a handle (`self._pool.put(driver)`) appends it
back to the queue. -/
inductive PoolStep : PoolDyn → PoolDyn → Prop
  | acquire (h : Nat) (rest co : List Nat) :
      PoolStep ⟨h :: rest, co⟩ ⟨rest, h :: co⟩
  | release (av co : List Nat) (h : Nat) (hmem : h ∈ co) :
      PoolStep ⟨av, co⟩ ⟨av ++ [h], co.erase h⟩

/-- States reachable from a freshly initialized pool of `N` handles. -/
inductive PoolReachable (N : Nat) : PoolDyn → Prop
  | init : PoolReachable N ⟨List.range N, []⟩
  | step {s t : PoolDyn} : PoolReachable N s → PoolStep s t → PoolReachable N t

/-- `BrowserPool.get_browser` as a scoped acquisition: take the queue
head (raising `queue.Empty` ≈ pool exhaustion when the wait times out),
run the body, and — in the `finally:` block — always put the handle back,
whether the body returned or raised. -/
def withBrowser (s : PoolDyn) (body : Nat → Except String Unit) :
    Except String Unit × PoolDyn :=
  match s.avail with
  | [] => (Except.error "queue.Empty", s)
  | h :: rest =>
    let outcome := body h
    (outcome, ⟨rest ++ [h], s.checkedOut⟩)

/-! ## Concrete fixtures used by witnesses and counterexamples -/

/-- A web on which every fetch fails: every crawl node is a dead end. -/
def emptyWeb : Web :=
  { fetch := fun _ => none
    fetchText := fun _ => none
    urljoin := fun _ href => href
    extractDate := fun _ => none }

/-- A page carrying both target fields: a validated apply anchor and a
deadline block that the date matcher hits. -/
def bothPage : Page :=
  { anchors := [⟨"Apply Now", "ApplyNow", "https://portal.example/apply"⟩]
    deadlineBlocks := ["Deadline: Jan 15, 2026"] }

/-- A web whose start page contains both target fields directly. -/
def bothWeb : Web :=
  { fetch := fun u => if u == "http://start.example" then some bothPage else none
    fetchText := fun u =>
      if u == "https://portal.example/apply" then some "Please log in" else none
    urljoin := fun _ href => href
    extractDate := fun t =>
      if containsSubstr t "Deadline" then some "Jan 15, 2026" else none }

/-! ### Deduplicator lemmas -/

theorem dedupAux_sublist (kf : List String) :
    ∀ (l : List Rec) (seen : List (List String)), (dedupAux kf seen l).Sublist l := by
  intro l
  induction l with
  | nil => intro seen; simp [dedupAux]
  | cons r rest ih =>
    intro seen
    by_cases h : recKey kf r ∈ seen
    · simpa [dedupAux, h] using (ih seen).cons r
    · simpa [dedupAux, h] using (ih (recKey kf r :: seen)).cons₂ r

theorem dedupAux_idem (kf : List String) :
    ∀ (l : List Rec) (seen : List (List String)),
      dedupAux kf seen (dedupAux kf seen l) = dedupAux kf seen l := by
  intro l
  induction l with
  | nil => intro seen; simp [dedupAux]
  | cons r rest ih =>
    intro seen
    by_cases h : recKey kf r ∈ seen
    · simp [dedupAux, h, ih seen]
    · simp [dedupAux, h, ih (recKey kf r :: seen)]

theorem firstOccFrom_nil (kf : List String) (pre : List (List String)) :
    firstOccFrom kf pre [] = [] := rfl

theorem firstOccFrom_cons (kf : List String) (pre : List (List String))
    (r : Rec) (l : List Rec) :
    firstOccFrom kf pre (r :: l) =
      if recKey kf r ∈ pre then firstOccFrom kf (pre ++ [recKey kf r]) l
      else r :: firstOccFrom kf (pre ++ [recKey kf r]) l := by
  unfold firstOccFrom
  rw [List.length_cons, List.range_succ_eq_map, List.filterMap_cons,
    List.filterMap_map]
  have htail :
      List.filterMap
        ((fun i => ((r :: l).get? i).bind (fun s =>
          if recKey kf s ∈ pre ++ ((r :: l).take i).map (recKey kf) then none
          else some s)) ∘ Nat.succ) (List.range l.length) =
      List.filterMap (fun i => (l.get? i).bind (fun s =>
          if recKey kf s ∈ (pre ++ [recKey kf r]) ++ (l.take i).map (recKey kf)
          then none else some s)) (List.range l.length) := by
    apply List.filterMap_congr
    intro i _
    simp only [Function.comp]
    rw [List.get?_cons_succ, List.take_succ_cons, List.map_cons,
      ← List.append_cons]
  rw [htail]
  by_cases h : recKey kf r ∈ pre
  · have h0 : (((r :: l).get? 0).bind (fun s =>
        if recKey kf s ∈ pre ++ ((r :: l).take 0).map (recKey kf) then none
        else some s)) = none := by
      simp [h]
    rw [h0, if_pos h]
  · have h0 : (((r :: l).get? 0).bind (fun s =>
        if recKey kf s ∈ pre ++ ((r :: l).take 0).map (recKey kf) then none
        else some s)) = some r := by
      simp [h]
    rw [h0, if_neg h]

theorem dedupAux_eq_firstOccFrom (kf : List String) :
    ∀ (l : List Rec) (seen : List (List String)) (pre : List (List String)),
      (∀ k, k ∈ seen ↔ k ∈ pre) →
      dedupAux kf seen l = firstOccFrom kf pre l := by
  intro l
  induction l with
  | nil => intro seen pre _; rfl
  | cons r rest ih =>
    intro seen pre hiff
    rw [firstOccFrom_cons]
    by_cases h : recKey kf r ∈ seen
    · have hp : recKey kf r ∈ pre := (hiff _).1 h
      rw [if_pos hp]
      simp only [dedupAux, if_pos h]
      apply ih
      intro k
      have hk := hiff k
      simp only [List.mem_append, List.mem_singleton]
      constructor
      · intro hs; exact Or.inl (hk.1 hs)
      · rintro (hs | rfl)
        · exact hk.2 hs
        · exact h
    · have hp : recKey kf r ∉ pre := fun hc => h ((hiff _).2 hc)
      rw [if_neg hp]
      simp only [dedupAux, if_neg h]
      congr 1
      apply ih
      intro k
      have hk := hiff k
      simp only [List.mem_cons, List.mem_append, List.mem_singleton]
      tauto

/-- The first record of a nonempty input is always kept (its key is not in
the initially empty seen set). -/
theorem deduplicate_results_nonempty (kf : Option (List String)) (r : Rec)
    (rest : List Rec) :
    deduplicate_results (r :: rest) kf =
      r :: dedupAux (kf.getD defaultKeyFields) [recKey (kf.getD defaultKeyFields) r] rest := by
  simp [deduplicate_results, dedupAux]

/-! ### Crawler lemmas -/

theorem runLinks_congr {step1 step2 : String → DfsState → DfsState}
    (h : ∀ l st, step1 l st = step2 l st) :
    ∀ (links : List String) (s : DfsState),
      runLinks step1 links s = runLinks step2 links s := by
  intro links
  induction links with
  | nil => intro s; rfl
  | cons l rest ih =>
    intro s
    simp only [runLinks]
    by_cases hb : bothFound s.result
    · rw [if_pos hb, if_pos hb]
    · rw [if_neg hb, if_neg hb, h l s]
      exact ih _

/-- `dfsStep` ignores `recurse` outside the `depth < max_depth - 1`
branch. -/
theorem dfsStep_no_expand (w : Web) (D : Nat)
    (rec1 rec2 : Option (String → DfsState → DfsState))
    (url : String) (depth : Nat) (s : DfsState) (hd : D - 1 ≤ depth) :
    dfsStep w D rec1 url depth s = dfsStep w D rec2 url depth s := by
  have hlt : ¬ depth < D - 1 := by omega
  unfold dfsStep
  by_cases h1 : D ≤ depth
  · rw [if_pos h1, if_pos h1]
  rw [if_neg h1, if_neg h1]
  by_cases h2 : bothFound s.result
  · rw [if_pos h2, if_pos h2]
  rw [if_neg h2, if_neg h2]
  by_cases h3 : url ∈ s.visited
  · rw [if_pos h3, if_pos h3]
  rw [if_neg h3, if_neg h3]
  cases hf : w.fetch url with
  | none => simp only [hf]
  | some page =>
    simp only [hf]
    exact if_congr Iff.rfl rfl (by rw [if_neg hlt, if_neg hlt])

/-- `dfsStep` only depends on `recurse` through the link loop it feeds. -/
theorem dfsStep_congr (w : Web) (D : Nat)
    {rec1 rec2 : Option (String → DfsState → DfsState)}
    (url : String) (depth : Nat) (s : DfsState)
    (h : ∀ (page : Page) (s2 : DfsState),
      (match rec1 with
        | none => s2
        | some step => runLinks step (getNextLinks w page url) s2) =
      (match rec2 with
        | none => s2
        | some step => runLinks step (getNextLinks w page url) s2)) :
    dfsStep w D rec1 url depth s = dfsStep w D rec2 url depth s := by
  unfold dfsStep
  by_cases h1 : D ≤ depth
  · rw [if_pos h1, if_pos h1]
  rw [if_neg h1, if_neg h1]
  by_cases h2 : bothFound s.result
  · rw [if_pos h2, if_pos h2]
  rw [if_neg h2, if_neg h2]
  by_cases h3 : url ∈ s.visited
  · rw [if_pos h3, if_pos h3]
  rw [if_neg h3, if_neg h3]
  cases hf : w.fetch url with
  | none => simp only [hf]
  | some page =>
    simp only [hf]
    exact if_congr Iff.rfl rfl (if_congr Iff.rfl (h page _) rfl)

/-- The fuel argument of `dfs` is irrelevant as soon as it dominates the
real recursion bound `max_depth - 1 - depth`; in particular all fuels
`≥ max_depth` agree at depth 0, so the embedding does not depend on the
artificial fuel. -/
theorem dfs_fuel_irrelevant (w : Web) (D : Nat) :
    ∀ (f1 f2 : Nat) (url : String) (depth : Nat) (s : DfsState),
      D - 1 - depth ≤ f1 → D - 1 - depth ≤ f2 →
      dfs w D f1 url depth s = dfs w D f2 url depth s := by
  intro f1
  induction f1 with
  | zero =>
    intro f2 url depth s h1 h2
    cases f2 with
    | zero => rfl
    | succ f2' =>
      show dfsStep w D none url depth s = dfsStep w D (some _) url depth s
      exact dfsStep_no_expand w D _ _ url depth s (by omega)
  | succ f1' ih =>
    intro f2 url depth s h1 h2
    cases f2 with
    | zero =>
      show dfsStep w D (some _) url depth s = dfsStep w D none url depth s
      exact dfsStep_no_expand w D _ _ url depth s (by omega)
    | succ f2' =>
      by_cases hdep : depth < D - 1
      · show dfsStep w D (some _) url depth s = dfsStep w D (some _) url depth s
        apply dfsStep_congr
        intro page s2
        simp only
        exact runLinks_congr
          (fun l st => ih f2' l (depth + 1) st (by omega) (by omega)) _ _
      · show dfsStep w D (some _) url depth s = dfsStep w D (some _) url depth s
        exact dfsStep_no_expand w D _ _ url depth s (by omega)

/-- The fan-out cap: `_get_next_links` returns at most 5 links. -/
theorem getNextLinks_length_le (w : Web) (page : Page) (base_url : String) :
    (getNextLinks w page base_url).length ≤ 5 := by
  unfold getNextLinks
  simp only [List.length_take]
  exact min_le_left _ _

/-- The link loop only grows `visited` the way its step does: it prepends
fresh URLs, adds at most `links.length * B` of them, and preserves
`Nodup`. -/
theorem runLinks_visited {step : String → DfsState → DfsState} {B : Nat}
    (hstep : ∀ l st, ∃ new, (step l st).visited = new ++ st.visited ∧
      new.length ≤ B ∧ (st.visited.Nodup → (step l st).visited.Nodup)) :
    ∀ (links : List String) (st : DfsState),
      ∃ new, (runLinks step links st).visited = new ++ st.visited ∧
        new.length ≤ links.length * B ∧
        (st.visited.Nodup → (runLinks step links st).visited.Nodup) := by
  intro links
  induction links with
  | nil => intro st; exact ⟨[], rfl, by simp, fun h => h⟩
  | cons l rest ih =>
    intro st
    simp only [runLinks]
    by_cases hb : bothFound st.result
    · rw [if_pos hb]; exact ⟨[], rfl, by simp, fun h => h⟩
    · rw [if_neg hb]
      obtain ⟨n1, e1, len1, nd1⟩ := hstep l st
      obtain ⟨n2, e2, len2, nd2⟩ := ih (step l st)
      refine ⟨n2 ++ n1, ?_, ?_, fun h => nd2 (nd1 h)⟩
      · rw [e2, e1, List.append_assoc]
      · rw [List.length_append, List.length_cons, Nat.succ_mul]
        omega

/-- One `_dfs` body call prepends at most `1 + 5 * B` fresh URLs to
`visited` (nothing at all when the depth guard fires) and preserves
`Nodup`, provided each recursive step obeys the bound `B`. -/
theorem dfsStep_visited (w : Web) (D : Nat)
    (recurse : Option (String → DfsState → DfsState)) (B : Nat)
    (hrec : ∀ step, recurse = some step → ∀ l st,
      ∃ new, (step l st).visited = new ++ st.visited ∧ new.length ≤ B ∧
        (st.visited.Nodup → (step l st).visited.Nodup))
    (url : String) (depth : Nat) (s : DfsState) :
    ∃ new, (dfsStep w D recurse url depth s).visited = new ++ s.visited ∧
      (D ≤ depth → new = []) ∧ new.length ≤ 1 + 5 * B ∧
      (s.visited.Nodup → (dfsStep w D recurse url depth s).visited.Nodup) := by
  have hnil : ([] : List String).length ≤ 1 + 5 * B := by
    simp only [List.length_nil]; omega
  have hone : ([url] : List String).length ≤ 1 + 5 * B := by
    simp only [List.length_singleton]; omega
  unfold dfsStep
  by_cases h1 : D ≤ depth
  · rw [if_pos h1]; exact ⟨[], rfl, fun _ => rfl, hnil, fun h => h⟩
  rw [if_neg h1]
  by_cases h2 : bothFound s.result
  · rw [if_pos h2]; exact ⟨[], rfl, fun _ => rfl, hnil, fun h => h⟩
  rw [if_neg h2]
  by_cases h3 : url ∈ s.visited
  · rw [if_pos h3]; exact ⟨[], rfl, fun _ => rfl, hnil, fun h => h⟩
  rw [if_neg h3]
  cases hf : w.fetch url with
  | none =>
    simp only [hf]
    exact ⟨[url], rfl, fun hc => absurd hc h1, hone,
      fun h => List.nodup_cons.2 ⟨h3, h⟩⟩
  | some page =>
    simp only [hf]
    by_cases h4 : bothFound (extractInfoFromPage w page url s.result)
    · rw [if_pos h4]
      exact ⟨[url], rfl, fun hc => absurd hc h1, hone,
        fun h => List.nodup_cons.2 ⟨h3, h⟩⟩
    · rw [if_neg h4]
      by_cases h5 : depth < D - 1
      · rw [if_pos h5]
        cases recurse with
        | none =>
          exact ⟨[url], rfl, fun hc => absurd hc h1, hone,
            fun h => List.nodup_cons.2 ⟨h3, h⟩⟩
        | some step =>
          simp only
          obtain ⟨n2, e2, len2, nd2⟩ :=
            runLinks_visited (hrec step rfl) (getNextLinks w page url)
              ⟨url :: s.visited, extractInfoFromPage w page url s.result⟩
          refine ⟨n2 ++ [url], ?_, fun hc => absurd hc h1, ?_, fun h => ?_⟩
          · rw [e2]
            simp [List.append_assoc]
          · have hle : n2.length ≤ 5 * B :=
              le_trans len2
                (Nat.mul_le_mul_right B (getNextLinks_length_le w page url))
            simp only [List.length_append, List.length_singleton]
            omega
          · exact nd2 (List.nodup_cons.2 ⟨h3, h⟩)
      · rw [if_neg h5]
        exact ⟨[url], rfl, fun hc => absurd hc h1, hone,
          fun h => List.nodup_cons.2 ⟨h3, h⟩⟩

/-- `_dfs` from depth `d` prepends at most `geomF (max_depth - d)` fresh
URLs to `visited` and preserves `Nodup`. -/
theorem dfs_visited (w : Web) (D : Nat) :
    ∀ (fuel : Nat) (url : String) (depth : Nat) (s : DfsState),
      ∃ new, (dfs w D fuel url depth s).visited = new ++ s.visited ∧
        new.length ≤ geomF (D - depth) ∧
        (s.visited.Nodup → (dfs w D fuel url depth s).visited.Nodup) := by
  intro fuel
  induction fuel with
  | zero =>
    intro url depth s
    obtain ⟨new, e, hz, hlen, hnd⟩ :=
      dfsStep_visited w D none 0 (fun step h => Option.noConfusion h)
        url depth s
    refine ⟨new, e, ?_, hnd⟩
    by_cases hd : D ≤ depth
    · rw [hz hd]; simp
    · have h1 : D - depth = (D - depth - 1) + 1 := by omega
      rw [h1]
      simp only [geomF]
      omega
  | succ fuel' ih =>
    intro url depth s
    obtain ⟨new, e, hz, hlen, hnd⟩ :=
      dfsStep_visited w D
        (some (fun l st => dfs w D fuel' l (depth + 1) st))
        (geomF (D - (depth + 1)))
        (fun step hstep => by
          injection hstep with h
          subst h
          exact fun l st => ih l (depth + 1) st)
        url depth s
    refine ⟨new, e, ?_, hnd⟩
    by_cases hd : D ≤ depth
    · rw [hz hd]; simp
    · have h1 : D - depth = (D - depth - 1) + 1 := by omega
      have h2 : D - (depth + 1) = D - depth - 1 := by omega
      rw [h1]
      simp only [geomF]
      rw [h2] at hlen
      omega

/-- `geomF` is the geometric sum `Σ_{i=0}^{k-1} 5^i`. -/
theorem geomF_eq_sum (k : Nat) : geomF k = ∑ i in Finset.range k, 5 ^ i := by
  induction k with
  | zero => simp [geomF]
  | succ n ih =>
    have h : ∑ i in Finset.range n, 5 ^ (i + 1) =
        5 * ∑ i in Finset.range n, 5 ^ i := by
      rw [Finset.mul_sum]
      exact Finset.sum_congr rfl (fun i _ => by ring)
    rw [Finset.sum_range_succ']
    simp only [geomF, pow_zero]
    rw [h, ih]
    omega

/-- Behaviour of `_dfs` on a start page that already carries both target
fields: visit it, extract, and return before any link expansion. -/
theorem dfsStep_start_both (w : Web) (D : Nat)
    (recurse : Option (String → DfsState → DfsState)) (u : String) (page : Page)
    (hD : 1 ≤ D) (hf : w.fetch u = some page)
    (hboth : bothFound (extractInfoFromPage w page u ⟨none, none⟩) = true) :
    dfsStep w D recurse u 0 ⟨[], ⟨none, none⟩⟩ =
      ⟨[u], extractInfoFromPage w page u ⟨none, none⟩⟩ := by
  unfold dfsStep
  rw [if_neg (by omega : ¬ D ≤ 0)]
  rw [if_neg (by decide :
    ¬ bothFound (DfsState.mk [] ⟨none, none⟩).result = true)]
  rw [if_neg (by simp : ¬ u ∈ (DfsState.mk [] ⟨none, none⟩).visited)]
  simp only [hf]
  rw [if_pos hboth]

/-! ### Dispatcher lemmas -/

theorem runLoop_no_interrupt {α β : Type} (task : α → Except String (β × Nat)) :
    ∀ (order : List α) (i : Nat) (st : DispatchState α β),
      (∀ x ∈ order, ∃ d t, task x = Except.ok (d, t)) →
      (runLoop task none order i st).results.length =
        st.results.length + order.length ∧
      (runLoop task none order i st).completed_count =
        st.completed_count + order.length ∧
      (runLoop task none order i st).success_count =
        st.success_count + order.length ∧
      (runLoop task none order i st).fail_count = st.fail_count := by
  intro order
  induction order with
  | nil => intro i st h; exact ⟨rfl, rfl, rfl, rfl⟩
  | cons item rest ih =>
    intro i st h
    obtain ⟨d, t, hok⟩ := h item (List.mem_cons_self _ _)
    have hstep : runLoop task none (item :: rest) i st =
        runLoop task none rest (i + 1) (processOne task st item) := rfl
    obtain ⟨l1, l2, l3, l4⟩ :=
      ih (i + 1) (processOne task st item)
        (fun x hx => h x (List.mem_cons_of_mem _ hx))
    rw [hstep]
    refine ⟨?_, ?_, ?_, ?_⟩
    · rw [l1]; simp [processOne, hok]; omega
    · rw [l2]; simp [processOne, hok]; omega
    · rw [l3]; simp [processOne, hok]; omega
    · rw [l4]; simp [processOne, hok]

theorem runLoop_interrupt_eq {α β : Type} (task : α → Except String (β × Nat))
    (C : Nat) :
    ∀ (order : List α) (i : Nat) (st : DispatchState α β),
      runLoop task (some C) order i st =
        List.foldl (processOne task) st (order.take (C - i)) := by
  intro order
  induction order with
  | nil => intro i st; simp [runLoop]
  | cons item rest ih =>
    intro i st
    have hstep : runLoop task (some C) (item :: rest) i st =
        if checkInterrupted (some C) i = true then st
        else runLoop task (some C) rest (i + 1) (processOne task st item) := rfl
    by_cases hC : C ≤ i
    · have h0 : C - i = 0 := by omega
      have hck : checkInterrupted (some C) i = true := by
        simp [checkInterrupted, hC]
      rw [hstep, if_pos hck, h0]
      rfl
    · have hck : checkInterrupted (some C) i = false := by
        simp [checkInterrupted]; omega
      have h1 : C - i = (C - (i + 1)) + 1 := by omega
      rw [hstep, if_neg (by simp [hck]), ih (i + 1) (processOne task st item),
        h1]
      rfl

theorem foldl_processOne_results {α β : Type}
    (task : α → Except String (β × Nat)) :
    ∀ (l : List α) (st : DispatchState α β),
      (List.foldl (processOne task) st l).results =
        st.results ++ l.filterMap (okResult task) := by
  intro l
  induction l with
  | nil => intro st; simp
  | cons x rest ih =>
    intro st
    rw [List.foldl_cons, ih]
    cases hx : task x with
    | ok p =>
      simp [processOne, hx, okResult, List.append_assoc]
    | error e =>
      simp [processOne, hx, okResult]

/-! ### Pool lemmas -/

theorem poolReachable_perm (N : Nat) :
    ∀ (s : PoolDyn), PoolReachable N s →
      (s.avail ++ s.checkedOut).Perm (List.range N) := by
  intro s h
  induction h with
  | init => simp
  | step hr hs ih =>
    cases hs with
    | acquire hd rest co =>
      exact List.Perm.trans List.perm_middle ih
    | release av co hd hmem =>
      refine List.Perm.trans ?_ ih
      rw [List.append_assoc]
      exact List.Perm.append_left av
        (List.Perm.trans (List.Perm.refl _) (List.perm_cons_erase hmem).symm)

theorem withBrowser_release (s : PoolDyn) (body : Nat → Except String Unit)
    (hd : Nat) (rest : List Nat) (havail : s.avail = hd :: rest) :
    (withBrowser s body).2 = ⟨rest ++ [hd], s.checkedOut⟩ ∧
    (withBrowser s body).1 = body hd := by
  cases s with
  | mk av co =>
    cases havail
    exact ⟨rfl, rfl⟩

theorem withBrowser_reachable (N : Nat) (s : PoolDyn)
    (body : Nat → Except String Unit) (hr : PoolReachable N s) :
    PoolReachable N (withBrowser s body).2 := by
  cases s with
  | mk av co =>
    cases av with
    | nil => exact hr
    | cons hd rest =>
      have h1 : PoolReachable N ⟨rest, hd :: co⟩ :=
        PoolReachable.step hr (PoolStep.acquire hd rest co)
      have h2 : PoolReachable N ⟨rest ++ [hd], (hd :: co).erase hd⟩ :=
        PoolReachable.step h1
          (PoolStep.release rest (hd :: co) hd (List.mem_cons_self _ _))
      rw [List.erase_cons_head] at h2
      exact h2

/-! ### Output-shape lemmas -/

theorem dedup_run (l : List Rec) (kf : Option (List String)) (h : l ≠ []) :
    deduplicate_results l kf = dedupAux (kf.getD defaultKeyFields) [] l := by
  unfold deduplicate_results
  rw [if_neg (by simp [List.isEmpty_iff, h])]

theorem outField_of_truthy_false (o : Option String)
    (h : truthyOpt o = false) : outField o = "N/A" := by
  cases o with
  | none => rfl
  | some v =>
    simp only [truthyOpt, Bool.not_eq_false', beq_iff_eq] at h
    simp [outField, h]

theorem outField_some (v : String) (h : v ≠ "") : outField (some v) = v := by
  simp [outField, h]

/-! ## Claims -/

/-- C1: when the dispatcher's completion loop over a batch of `K` items is
cancelled after `C` completions have been consumed, the returned result
set has size at most `K`, is exactly the successes among those first `C`
processed completions, and therefore contains the result of every task
that had already succeeded at the moment of cancellation — no completed
result is silently dropped. -/
theorem claim_C1 {α β : Type} (task : α → Except String (β × Nat))
    (items order : List α) (C : Nat) (hperm : order.Perm items) :
    (run_tasks task (some C) order).results.length ≤ items.length ∧
    (run_tasks task (some C) order).results =
      (order.take C).filterMap (okResult task) ∧
    (∀ x ∈ order.take C, ∀ d t, task x = Except.ok (d, t) →
      d ∈ (run_tasks task (some C) order).results) := by
  have heq : run_tasks task (some C) order =
      List.foldl (processOne task) (emptyDispatch α β) (order.take C) := by
    unfold run_tasks
    rw [runLoop_interrupt_eq, Nat.sub_zero]
  have hres : (run_tasks task (some C) order).results =
      (order.take C).filterMap (okResult task) := by
    rw [heq, foldl_processOne_results]
    rfl
  refine ⟨?_, hres, ?_⟩
  · rw [hres]
    calc ((order.take C).filterMap (okResult task)).length
        ≤ (order.take C).length := List.length_filterMap_le _ _
      _ ≤ order.length := by rw [List.length_take]; exact min_le_right _ _
      _ = items.length := hperm.length_eq
  · intro x hx d t hok
    rw [hres]
    exact List.mem_filterMap.2 ⟨x, hx, by simp [okResult, hok]⟩

/-- Witness for C1: three items, task 2 fails, interrupt consumed before
the third completion; the two processed outcomes are retained. -/
theorem claim_C1_witness :
    (([1, 2, 3] : List Nat).Perm [1, 2, 3]) ∧
    ((run_tasks (fun n : Nat =>
        if n = 2 then (Except.error "boom" : Except String (Nat × Nat))
        else Except.ok (n, 1)) (some 2) [1, 2, 3]).results.length ≤ 3 ∧
      (run_tasks (fun n : Nat =>
        if n = 2 then (Except.error "boom" : Except String (Nat × Nat))
        else Except.ok (n, 1)) (some 2) [1, 2, 3]).results =
        (([1, 2, 3] : List Nat).take 2).filterMap (okResult (fun n : Nat =>
          if n = 2 then (Except.error "boom" : Except String (Nat × Nat))
          else Except.ok (n, 1))) ∧
      (∀ x ∈ ([1, 2, 3] : List Nat).take 2, ∀ d t,
        (fun n : Nat =>
          if n = 2 then (Except.error "boom" : Except String (Nat × Nat))
          else Except.ok (n, 1)) x = Except.ok (d, t) →
        d ∈ (run_tasks (fun n : Nat =>
          if n = 2 then (Except.error "boom" : Except String (Nat × Nat))
          else Except.ok (n, 1)) (some 2) [1, 2, 3]).results)) :=
  ⟨List.Perm.refl _,
   claim_C1 (fun n : Nat =>
      if n = 2 then (Except.error "boom" : Except String (Nat × Nat))
      else Except.ok (n, 1)) [1, 2, 3] [1, 2, 3] 2 (List.Perm.refl _)⟩

/-- C8: `dedupe` is idempotent — for every record list and every
key-field choice (including the default), deduplicating twice equals
deduplicating once. -/
theorem claim_C8 (X : List Rec) (kf : Option (List String)) :
    deduplicate_results (deduplicate_results X kf) kf =
      deduplicate_results X kf := by
  cases X with
  | nil => rfl
  | cons r rest =>
    have e1 : deduplicate_results (r :: rest) kf =
        dedupAux (kf.getD defaultKeyFields) [] (r :: rest) :=
      dedup_run _ _ (by simp)
    have e2 : dedupAux (kf.getD defaultKeyFields) [] (r :: rest) =
        r :: dedupAux (kf.getD defaultKeyFields)
          [recKey (kf.getD defaultKeyFields) r] rest := by
      simp [dedupAux]
    rw [e1, e2, dedup_run _ _ (by simp)]
    simp only [dedupAux, List.not_mem_nil, if_neg (by simp : ¬ False)]
    rw [dedupAux_idem]

/-- C10: the output of `deduplicate_results` is a subsequence of its
input (so every retained record is returned verbatim — the key
normalization never alters a field), and it consists exactly of the
first occurrence of each distinct normalized key. -/
theorem claim_C10 (X : List Rec) (kf : Option (List String)) :
    (deduplicate_results X kf).Sublist X ∧
    deduplicate_results X kf =
      firstOccFrom (kf.getD defaultKeyFields) [] X := by
  cases X with
  | nil => exact ⟨List.nil_sublist _, rfl⟩
  | cons r rest =>
    rw [dedup_run (r :: rest) kf (by simp)]
    exact ⟨dedupAux_sublist _ _ _,
      dedupAux_eq_firstOccFrom _ _ [] [] (fun k => Iff.rfl)⟩

/-- C2 (amended): for every max depth `D ≥ 1`, if the start URL passes
`crawl`'s trivial-URL guard and the start page itself yields both target
fields on extraction, the crawl terminates returning exactly those two
found values and visits no page other than the start page.  (The claim's
`D ≥ 0` fails: at `D = 0` the `depth >= max_depth` check fires before
the start page is even visited — see the counterexample.) -/
theorem claim_C2 (w : Web) (D : Nat) (u : String) (page : Page)
    (hD : 1 ≤ D) (hu1 : u ≠ "") (hu2 : pyLower u ≠ "n/a")
    (hf : w.fetch u = some page)
    (hboth : bothFound (extractInfoFromPage w page u ⟨none, none⟩) = true) :
    ∃ dl al, extractInfoFromPage w page u ⟨none, none⟩ = ⟨some dl, some al⟩ ∧
      dl ≠ "" ∧ al ≠ "" ∧
      crawl w D u = ⟨dl, al⟩ ∧ crawlVisited w D u = [u] := by
  have hb := hboth
  rw [bothFound, Bool.and_eq_true] at hb
  obtain ⟨htd, hta⟩ := hb
  set r := extractInfoFromPage w page u ⟨none, none⟩ with hrdef
  cases hd : r.deadline with
  | none => rw [hd] at htd; exact absurd htd (by simp [truthyOpt])
  | some dl =>
    cases ha : r.apply_link with
    | none => rw [ha] at hta; exact absurd hta (by simp [truthyOpt])
    | some al =>
      rw [hd] at htd
      rw [ha] at hta
      have hdl : dl ≠ "" := by
        simpa [truthyOpt, Bool.not_eq_true', beq_iff_eq] using htd
      have hal : al ≠ "" := by
        simpa [truthyOpt, Bool.not_eq_true', beq_iff_eq] using hta
      have hre : r = ⟨some dl, some al⟩ := by
        have : r = ⟨r.deadline, r.apply_link⟩ := rfl
        rw [this, hd, ha]
      have hg : (u == "" || pyLower u == "n/a") = false := by
        simp [hu1, hu2]
      have hdfs : dfs w D D u 0 ⟨[], ⟨none, none⟩⟩ = ⟨[u], r⟩ := by
        cases D with
        | zero => omega
        | succ D' =>
          show dfsStep w (D' + 1)
            (some (fun l st => dfs w (D' + 1) D' l (0 + 1) st)) u 0
            ⟨[], ⟨none, none⟩⟩ = ⟨[u], r⟩
          rw [dfsStep_start_both w (D' + 1) _ u page (by omega) hf hboth]
      refine ⟨dl, al, hre, hdl, hal, ?_, ?_⟩
      · simp only [crawl, crawlRun, hg, Bool.false_eq_true, if_false]
        rw [hdfs]
        simp only [hre]
        rw [outField_some dl hdl, outField_some al hal]
      · simp only [crawlVisited, crawlRun, hg, Bool.false_eq_true, if_false]
        rw [hdfs]

/-- Counterexample to C2 as stated: at `D = 0`, even though the start
page yields both target fields, `crawl` returns the sentinel pair and
visits nothing, instead of returning the found values. -/
theorem claim_C2_cex :
    bothWeb.fetch "http://start.example" = some bothPage ∧
    extractInfoFromPage bothWeb bothPage "http://start.example"
      ⟨none, none⟩ =
      ⟨some "Jan 15, 2026", some "https://portal.example/apply"⟩ ∧
    crawl bothWeb 0 "http://start.example" = ⟨"N/A", "N/A"⟩ ∧
    crawlVisited bothWeb 0 "http://start.example" = [] ∧
    (⟨"N/A", "N/A"⟩ : CrawlOutput) ≠
      ⟨"Jan 15, 2026", "https://portal.example/apply"⟩ := by
  refine ⟨by decide, by decide, by decide, by decide, by decide⟩

/-- Witness for C2 at `D = 1` on a concrete web whose start page carries
both fields. -/
theorem claim_C2_witness :
    (1 ≤ 1) ∧ ("http://start.example" ≠ "") ∧
    (pyLower "http://start.example" ≠ "n/a") ∧
    bothWeb.fetch "http://start.example" = some bothPage ∧
    bothFound (extractInfoFromPage bothWeb bothPage "http://start.example"
      ⟨none, none⟩) = true ∧
    (∃ dl al, extractInfoFromPage bothWeb bothPage "http://start.example"
        ⟨none, none⟩ = ⟨some dl, some al⟩ ∧ dl ≠ "" ∧ al ≠ "" ∧
      crawl bothWeb 1 "http://start.example" = ⟨dl, al⟩ ∧
      crawlVisited bothWeb 1 "http://start.example" = ["http://start.example"]) :=
  ⟨by decide, by decide, by decide, by decide, by decide,
    claim_C2 bothWeb 1 "http://start.example" bothPage (by decide) (by decide)
      (by decide) (by decide) (by decide)⟩

/-- C3 (amended): `crawl` is a total function — every start URL yields an
output record — and each output field equals the explicit sentinel string
`"N/A"` (not the claim's `"not found"`) exactly when the search failed to
locate that field, and the located value itself otherwise. -/
theorem claim_C3 (w : Web) (D : Nat) (u : String) :
    (truthyOpt (crawlSearch w D u).deadline = false →
      (crawl w D u).deadline = "N/A") ∧
    (truthyOpt (crawlSearch w D u).apply_link = false →
      (crawl w D u).apply_link = "N/A") ∧
    (∀ dl, (crawlSearch w D u).deadline = some dl → dl ≠ "" →
      (crawl w D u).deadline = dl) ∧
    (∀ al, (crawlSearch w D u).apply_link = some al → al ≠ "" →
      (crawl w D u).apply_link = al) := by
  by_cases hg : (u == "" || pyLower u == "n/a") = true
  · have hcs : crawlSearch w D u = ⟨none, none⟩ := by
      simp [crawlSearch, hg]
    have hcc : crawl w D u = ⟨"N/A", "N/A"⟩ := by
      simp [crawl, crawlRun, hg]
    refine ⟨fun _ => by rw [hcc], fun _ => by rw [hcc], ?_, ?_⟩
    · intro dl hdl _
      rw [hcs] at hdl
      exact absurd hdl (by simp)
    · intro al hal _
      rw [hcs] at hal
      exact absurd hal (by simp)
  · have hg' : (u == "" || pyLower u == "n/a") = false := by
      simpa using hg
    have hcs : crawlSearch w D u =
        (dfs w D D u 0 ⟨[], ⟨none, none⟩⟩).result := by
      simp [crawlSearch, hg', Bool.false_eq_true]
    have hcd : (crawl w D u).deadline =
        outField (dfs w D D u 0 ⟨[], ⟨none, none⟩⟩).result.deadline := by
      simp [crawl, crawlRun, hg', Bool.false_eq_true]
    have hca : (crawl w D u).apply_link =
        outField (dfs w D D u 0 ⟨[], ⟨none, none⟩⟩).result.apply_link := by
      simp [crawl, crawlRun, hg', Bool.false_eq_true]
    refine ⟨?_, ?_, ?_, ?_⟩
    · intro h
      rw [hcs] at h
      rw [hcd, outField_of_truthy_false _ h]
    · intro h
      rw [hcs] at h
      rw [hca, outField_of_truthy_false _ h]
    · intro dl hdl hne
      rw [hcs] at hdl
      rw [hcd, hdl, outField_some dl hne]
    · intro al hal hne
      rw [hcs] at hal
      rw [hca, hal, outField_some al hne]

/-- Counterexample to C3 as stated: on a web where every fetch fails, no
field can be located, yet the returned sentinel is `"N/A"`, not the
claimed `"not found"`. -/
theorem claim_C3_cex :
    truthyOpt (crawlSearch emptyWeb 3 "http://a.example").deadline = false ∧
    truthyOpt (crawlSearch emptyWeb 3 "http://a.example").apply_link = false ∧
    crawl emptyWeb 3 "http://a.example" = ⟨"N/A", "N/A"⟩ ∧
    (crawl emptyWeb 3 "http://a.example").deadline ≠ "not found" ∧
    (crawl emptyWeb 3 "http://a.example").apply_link ≠ "not found" := by
  refine ⟨by decide, by decide, by decide, by decide, by decide⟩

/-- Witness for C3 on a concrete web where the deadline search fails. -/
theorem claim_C3_witness :
    truthyOpt (crawlSearch emptyWeb 2 "http://b.example").deadline = false ∧
    (crawl emptyWeb 2 "http://b.example").deadline = "N/A" :=
  ⟨by decide, (claim_C3 emptyWeb 2 "http://b.example").1 (by decide)⟩

/-- C4 (amended): constructing the pool with a non-positive size and
initializing it raises no error at all — it silently yields an
initialized pool with an empty handle queue and no browsers (the
degenerate pool the claim says cannot arise silently; exhaustion only
surfaces later, when an acquisition times out on the empty queue). -/
theorem claim_C4 (size : Int) (headless : Bool) (createOk : Nat → Bool)
    (h : size ≤ 0) :
    (initializePool createOk (browserPoolInit size headless)).initialized =
      true ∧
    (initializePool createOk (browserPoolInit size headless)).pool = [] ∧
    (initializePool createOk (browserPoolInit size headless)).all_browsers =
      [] := by
  have hz : size.toNat = 0 := Int.toNat_of_nonpos h
  refine ⟨rfl, ?_, ?_⟩ <;>
    simp [initializePool, browserPoolInit, hz]

/-- Counterexample to C4 as stated: initializing a size-0 pool completes
without any error and produces an empty pool. -/
theorem claim_C4_cex :
    (initializePool (fun _ => true) (browserPoolInit 0 true)).initialized =
      true ∧
    (initializePool (fun _ => true) (browserPoolInit 0 true)).pool = [] ∧
    (initializePool (fun _ => true) (browserPoolInit 0 true)).all_browsers =
      [] := by
  refine ⟨by decide, by decide, by decide⟩

/-- Witness for C4 at size `-1`. -/
theorem claim_C4_witness :
    ((-1 : Int) ≤ 0) ∧
    ((initializePool (fun _ => false) (browserPoolInit (-1) false)).initialized
        = true ∧
      (initializePool (fun _ => false) (browserPoolInit (-1) false)).pool = [] ∧
      (initializePool (fun _ => false)
        (browserPoolInit (-1) false)).all_browsers = []) :=
  ⟨by decide, claim_C4 (-1) false (fun _ => false) (by decide)⟩

/-- C5: in every reachable pool state the handles are partitioned between
the available queue and the checked-out set (each of the `N` handles is in
exactly one of the two, and only those handles exist), at most `N` are
checked out; and a scoped acquisition returns its handle to the available
queue on every exit path — the body's outcome, normal or raised, is passed
through while the final state has the handle back in the queue and is
itself reachable. -/
theorem claim_C5 :
    (∀ (N : Nat) (s : PoolDyn), PoolReachable N s →
      (s.avail ++ s.checkedOut).Perm (List.range N) ∧
      s.checkedOut.length ≤ N ∧
      (∀ h, (h ∈ s.avail ∨ h ∈ s.checkedOut) ↔ h < N) ∧
      (∀ h, ¬ (h ∈ s.avail ∧ h ∈ s.checkedOut))) ∧
    (∀ (s : PoolDyn) (body : Nat → Except String Unit) (hd : Nat)
        (rest : List Nat), s.avail = hd :: rest →
      (withBrowser s body).2 = ⟨rest ++ [hd], s.checkedOut⟩ ∧
      (withBrowser s body).1 = body hd) ∧
    (∀ (N : Nat) (s : PoolDyn) (body : Nat → Except String Unit),
      PoolReachable N s → PoolReachable N (withBrowser s body).2) := by
  refine ⟨?_, withBrowser_release, withBrowser_reachable⟩
  intro N s hr
  have hperm := poolReachable_perm N s hr
  have hnd : (s.avail ++ s.checkedOut).Nodup :=
    (hperm.nodup_iff).2 (List.nodup_range N)
  refine ⟨hperm, ?_, ?_, ?_⟩
  · have := hperm.length_eq
    rw [List.length_append, List.length_range] at this
    omega
  · intro h
    rw [← List.mem_append, hperm.mem_iff, List.mem_range]
  · intro h ⟨h1, h2⟩
    exact (List.disjoint_of_nodup_append hnd) h1 h2

/-- Witness for C5: the freshly initialized two-handle pool satisfies the
partition invariant, and a scoped acquisition whose body raises still
returns handle 0 to the back of the queue, reaching a valid state. -/
theorem claim_C5_witness :
    ((⟨[0, 1], []⟩ : PoolDyn).avail ++
      (⟨[0, 1], []⟩ : PoolDyn).checkedOut).Perm (List.range 2) ∧
    (withBrowser ⟨[0, 1], []⟩ (fun _ => Except.error "boom")).2 =
      ⟨[1] ++ [0], []⟩ ∧
    (withBrowser ⟨[0, 1], []⟩ (fun _ => Except.error "boom")).1 =
      Except.error "boom" ∧
    PoolReachable 2 (withBrowser ⟨[0, 1], []⟩ (fun _ => Except.error "boom")).2 :=
  ⟨(claim_C5.1 2 ⟨[0, 1], []⟩ PoolReachable.init).1,
   (claim_C5.2.1 ⟨[0, 1], []⟩ (fun _ => Except.error "boom") 0 [1] rfl).1,
   (claim_C5.2.1 ⟨[0, 1], []⟩ (fun _ => Except.error "boom") 0 [1] rfl).2,
   claim_C5.2.2 2 ⟨[0, 1], []⟩ (fun _ => Except.error "boom") PoolReachable.init⟩

/-- C6: within one crawl no URL is ever visited twice (the visited list
is duplicate-free), and with fan-out cap `F = 5` the number of visited
pages is at most `Σ_{i=0}^{D-1} 5^i`. -/
theorem claim_C6 (w : Web) (D : Nat) (u : String) :
    (crawlVisited w D u).Nodup ∧
    (crawlVisited w D u).length ≤ ∑ i in Finset.range D, 5 ^ i := by
  by_cases hg : (u == "" || pyLower u == "n/a") = true
  · constructor <;> simp [crawlVisited, crawlRun, hg]
  · have hg' : (u == "" || pyLower u == "n/a") = false := by simpa using hg
    have hv : crawlVisited w D u =
        (dfs w D D u 0 ⟨[], ⟨none, none⟩⟩).visited := by
      simp [crawlVisited, crawlRun, hg', Bool.false_eq_true]
    obtain ⟨new, e, hlen, hnd⟩ := dfs_visited w D D u 0 ⟨[], ⟨none, none⟩⟩
    constructor
    · rw [hv]
      exact hnd List.nodup_nil
    · rw [hv, e, ← geomF_eq_sum]
      simpa using hlen

/-- C7: an uninterrupted batch of `K` items whose task function succeeds
on every item yields exactly `K` results, with counters
`completed = K`, `succeeded = K`, `failed = 0`. -/
theorem claim_C7 {α β : Type} (task : α → Except String (β × Nat))
    (items order : List α) (hperm : order.Perm items)
    (hok : ∀ x ∈ items, ∃ d t, task x = Except.ok (d, t)) :
    (run_tasks task none order).results.length = items.length ∧
    (run_tasks task none order).completed_count = items.length ∧
    (run_tasks task none order).success_count = items.length ∧
    (run_tasks task none order).fail_count = 0 := by
  obtain ⟨l1, l2, l3, l4⟩ :=
    runLoop_no_interrupt task order 0 (emptyDispatch α β)
      (fun x hx => hok x (hperm.subset hx))
  have hlen := hperm.length_eq
  unfold run_tasks
  refine ⟨?_, ?_, ?_, ?_⟩
  · rw [l1]; simpa [emptyDispatch] using hlen
  · rw [l2]; simpa [emptyDispatch] using hlen
  · rw [l3]; simpa [emptyDispatch] using hlen
  · rw [l4]; rfl

/-- Witness for C7: three always-succeeding tasks in submission order. -/
theorem claim_C7_witness :
    (([1, 2, 3] : List Nat).Perm [1, 2, 3]) ∧
    (∀ x ∈ ([1, 2, 3] : List Nat), ∃ d t,
      (fun n : Nat => (Except.ok (n * 2, 1) : Except String (Nat × Nat))) x =
        Except.ok (d, t)) ∧
    ((run_tasks (fun n : Nat =>
        (Except.ok (n * 2, 1) : Except String (Nat × Nat)))
        none [1, 2, 3]).results.length = 3 ∧
      (run_tasks (fun n : Nat =>
        (Except.ok (n * 2, 1) : Except String (Nat × Nat)))
        none [1, 2, 3]).completed_count = 3 ∧
      (run_tasks (fun n : Nat =>
        (Except.ok (n * 2, 1) : Except String (Nat × Nat)))
        none [1, 2, 3]).success_count = 3 ∧
      (run_tasks (fun n : Nat =>
        (Except.ok (n * 2, 1) : Except String (Nat × Nat)))
        none [1, 2, 3]).fail_count = 0) :=
  ⟨List.Perm.refl _, fun x _ => ⟨x * 2, 1, rfl⟩,
   claim_C7 (fun n : Nat => (Except.ok (n * 2, 1) : Except String (Nat × Nat)))
     [1, 2, 3] [1, 2, 3] (List.Perm.refl _) (fun x _ => ⟨x * 2, 1, rfl⟩)⟩

/-- C9: a start URL that is empty or case-insensitively `"n/a"` makes
`crawl` return immediately with both fields set to the `"N/A"` sentinel,
visiting (hence fetching) no page at all. -/
theorem claim_C9 (w : Web) (D : Nat) (u : String)
    (h : u = "" ∨ pyLower u = "n/a") :
    crawl w D u = ⟨"N/A", "N/A"⟩ ∧ crawlVisited w D u = [] := by
  have hg : (u == "" || pyLower u == "n/a") = true := by
    rcases h with h | h <;> simp [h]
  exact ⟨by simp [crawl, crawlRun, hg], by simp [crawlVisited, crawlRun, hg]⟩

/-- Witness for C9 at the mixed-case start URL `"N/a"`. -/
theorem claim_C9_witness :
    ("N/a" = "" ∨ pyLower "N/a" = "n/a") ∧
    crawl emptyWeb 2 "N/a" = ⟨"N/A", "N/A"⟩ ∧
    crawlVisited emptyWeb 2 "N/a" = [] :=
  ⟨Or.inr (by decide),
   (claim_C9 emptyWeb 2 "N/a" (Or.inr (by decide))).1,
   (claim_C9 emptyWeb 2 "N/a" (Or.inr (by decide))).2⟩

end Scraper
